import Mathlib

/-!
# The decorator sample: `h ∘ inner ∘ k`

A shallow embedding of `sandbox/decorator.go` (package `decorator`).

* A Go `string` is a finite sequence of bytes: `GoString := List (Fin 256)`.
* A Go `int` on a 64-bit platform is a two's-complement 64-bit integer.  Values are
  carried as `Int`; every arithmetic operation of the source is followed by the
  explicit reduction `wrapInt` into `[-2^63, 2^63)`.  A `uint64` is a `Nat`
  reduced `% 2^64`.
* A Go result pair `(value, error)` is a Lean pair `value × Option NumError`,
  where `none` is the `nil` error.
* `k` delegates to `strconv.Atoi` of the Go standard library.  `Atoi`, `ParseInt`
  and `ParseUint` below follow the library source, specialised to the only arguments
  `Atoi` ever passes on (`base = 10`, `bitSize = 0`, i.e. `IntSize = 64`); of the
  library's `*NumError` only the `Err` field (`ErrSyntax` / `ErrRange`) is kept, the
  `Func` and `Num` fields serve the error message alone.
-/

namespace decorator

/-! ## Machine values -/

/-- A Go `byte`. -/
abbrev Byte := Fin 256

/-- A Go `string`: an immutable sequence of bytes. -/
abbrev GoString := List Byte

/-- The bytes of a string literal (its UTF-8 encoding restricted to ASCII literals:
each code point below 128 is its own byte). -/
def str (s : String) : GoString := s.toList.map (fun c => Fin.ofNat c.toNat)

/-- `strconv.IntSize` on a 64-bit platform. -/
def intSize : Nat := 64

/-- Conversion of a mathematical integer into the Go type `int` (`int64`):
reduction modulo `2^64` into `[-2^63, 2^63)`. -/
def wrapInt (z : Int) : Int := (z + 2 ^ 63) % 2 ^ 64 - 2 ^ 63

/-- Go `a * b` on `int`. -/
def mulInt (a b : Int) : Int := wrapInt (a * b)

/-- Go `a + b` on `int`. -/
def addInt (a b : Int) : Int := wrapInt (a + b)

/-- Go unary `-a` on `int`. -/
def negInt (a : Int) : Int := wrapInt (-a)

/-- The values a Go `int` can hold. -/
def isInt (z : Int) : Prop := -2 ^ 63 ≤ z ∧ z < 2 ^ 63

instance (z : Int) : Decidable (isInt z) := by unfold isInt; infer_instance

/-- The `Err` field of `strconv.NumError`. -/
inductive NumError where
  | ErrSyntax
  | ErrRange
  deriving DecidableEq, Repr

/-! ## `strconv` (Go standard library), base 10 -/

/-- The function `lower(c)` of `strconv`: `c | ('x' - 'X')`. -/
def lower (c : Byte) : Nat := c.val ||| 32

/-- The value `maxUint64`. -/
def maxUint64 : Nat := 2 ^ 64 - 1

/-- The `switch` of the digit loop of `strconv.ParseUint` for `base = 10` (so `base0` is
false and the case `c == '_' && base0` never applies): the digit value `d` of the byte
`c`, or `none` for the `default` case (a syntax error). -/
def digitVal (c : Byte) : Option Nat :=
  if 48 ≤ c.val ∧ c.val ≤ 57 then some (c.val - 48)
  else if 97 ≤ lower c ∧ lower c ≤ 122 then some ((lower c + 256 - 97 + 10) % 256)
  else none

/-- The digit loop of `strconv.ParseUint` for `base = 10`, `bitSize = 64`,
started with accumulator `n`. -/
def parseUintLoop : List Byte → Nat → Nat × Option NumError
  | [], n => (n, none)
  | c :: rest, n =>
    let base : Nat := 10
    -- Cutoff is the smallest number such that cutoff*base > maxUint64.
    let cutoff : Nat := maxUint64 / 10 + 1
    -- `uint64(1)<<uint(bitSize) - 1` in `uint64` arithmetic, `bitSize = 64`.
    let maxVal : Nat := (2 ^ 64 + (2 ^ intSize) % 2 ^ 64 - 1) % 2 ^ 64
    match digitVal c with
    | none => (0, some .ErrSyntax)
    | some d =>
      if d ≥ base then (0, some .ErrSyntax)
      else if n ≥ cutoff then
        -- n*base overflows
        (maxVal, some .ErrRange)
      else
        let n10 := (n * base) % 2 ^ 64
        let n1 := (n10 + d) % 2 ^ 64
        if n1 < n10 ∨ n1 > maxVal then
          -- n+d overflows
          (maxVal, some .ErrRange)
        else parseUintLoop rest n1

/-- The function `strconv.ParseUint(s, 10, 0)`. -/
def ParseUint (s : GoString) : Nat × Option NumError :=
  if s = [] then (0, some .ErrSyntax)
  else parseUintLoop s 0

/-- The function `strconv.ParseInt(s, 10, 0)`. -/
def ParseInt (s : GoString) : Int × Option NumError :=
  match s with
  | [] => (0, some .ErrSyntax)
  | c0 :: tl =>
    -- Pick off leading sign.
    let neg : Bool := decide (c0.val ≠ 43 ∧ c0.val = 45)
    let body : GoString := if c0.val = 43 then tl else if c0.val = 45 then tl else s
    -- Convert unsigned and check range.
    match ParseUint body with
    | (_, some .ErrSyntax) => (0, some .ErrSyntax)
    | (un, _) =>
      let cutoff : Nat := 2 ^ (intSize - 1)
      if neg = false ∧ un ≥ cutoff then (wrapInt ((cutoff : Int) - 1), some .ErrRange)
      else if neg = true ∧ un > cutoff then (negInt (wrapInt cutoff), some .ErrRange)
      else
        let n : Int := wrapInt un
        (if neg then negInt n else n, none)

/-- The fast-path loop of `strconv.Atoi`, started with accumulator `n`. -/
def atoiLoop : List Byte → Int → Int × Option NumError
  | [], n => (n, none)
  | ch :: rest, n =>
    let d : Nat := (ch.val + 256 - 48) % 256
    if d > 9 then (0, some .ErrSyntax)
    else atoiLoop rest (addInt (mulInt n 10) d)

/-- The function `strconv.Atoi`. -/
def Atoi (s : GoString) : Int × Option NumError :=
  let sLen := s.length
  if (intSize = 32 ∧ 0 < sLen ∧ sLen < 10) ∨ (intSize = 64 ∧ 0 < sLen ∧ sLen < 19) then
    -- Fast path for small integers that fit int type.
    match s with
    | [] => (0, some .ErrSyntax) -- not reached: `0 < sLen` on this path
    | c0 :: tl =>
      let signed : Bool := decide (c0.val = 45 ∨ c0.val = 43)
      let body : GoString := if signed then tl else s
      if signed = true ∧ body.length < 1 then (0, some .ErrSyntax)
      else
        match atoiLoop body 0 with
        | (_, some e) => (0, some e)
        | (n, none) => (if c0.val = 45 then negInt n else n, none)
  else
    -- Slow path for invalid, big, or underscored integers.
    match ParseInt s with
    | (i64, err) => (wrapInt i64, err)

/-! ## `decorator.go` -/

/-- The type `InnerFunc`: int -> int. -/
abbrev InnerFunc := Int → Int

/-- The type `DecoratedFunc`: string -> string. -/
abbrev DecoratedFunc := GoString → GoString

/-- The function `k` parses a numeric string into an int. -/
def k (s : GoString) : Int × Option NumError := Atoi s

/-- The map literal `words` of `h`. -/
def words : List (Int × GoString) :=
  [ (0, str "zero"), (1, str "one"), (2, str "two"), (3, str "three"),
    (4, str "four"), (5, str "five"), (6, str "six"), (7, str "seven"),
    (8, str "eight"), (9, str "nine"), (10, str "ten") ]

/-- The function `h` maps an int to a small English word representation. -/
def h (n : Int) : GoString :=
  match words.lookup n with
  | some w => w
  | none => str ""

/-- The function `A`, the trusted inner function: it multiplies by 2. -/
def A (x : Int) : Int := mulInt x 2

/-- The function `Decorator` wraps an `InnerFunc` and returns a `DecoratedFunc`. -/
def Decorator (inner : InnerFunc) : DecoratedFunc := fun s =>
  match k s with
  | (_, some _) => str ""
  | (n, none) =>
    let doubled := inner n
    h doubled

/-- An inner function with side effects: a Go closure of type `func(int) int` that reads
and writes captured variables, whose joint value is a state of type `σ`. -/
abbrev InnerFuncS (σ : Type) := Int → σ → Int × σ

/-- The function `Decorator` run with an inner closure that has side effects: the closure
returned by `Decorator`, with the state of the captured variables passed explicitly. -/
def DecoratorS {σ : Type} (inner : InnerFuncS σ) : GoString → σ → GoString × σ := fun s st =>
  match k s with
  | (_, some _) => (str "", st)
  | (n, none) =>
    match inner n st with
    | (doubled, st1) => (h doubled, st1)

/-- An inner function that records its calls: it appends each argument it receives to a
log and returns `f x`. -/
def recording (f : Int → Int) : InnerFuncS (List Int) := fun x log => (f x, log ++ [x])

/-- The twelve strings the decorated function can return. -/
def outputs : List GoString :=
  [ str "", str "zero", str "one", str "two", str "three", str "four", str "five",
    str "six", str "seven", str "eight", str "nine", str "ten" ]

/-! ## Vocabulary of the specification -/

/-- The English-word spellings of 0 through 10, in the order the specification lists them. -/
def englishWords : List String :=
  ["zero", "one", "two", "three", "four", "five", "six", "seven", "eight", "nine", "ten"]

/-- The English-word spelling of `n`, for `0 ≤ n ≤ 10`. -/
def spelling (n : Int) : GoString := str (englishWords.getD n.toNat "")

/-- A decimal digit, `'0'` to `'9'`. -/
def isDigit (c : Byte) : Bool := decide (48 ≤ c.val ∧ c.val ≤ 57)

/-- A sign character, `'+'` or `'-'`. -/
def isSign (c : Byte) : Bool := decide (c.val = 43 ∨ c.val = 45)

/-- The number a sequence of decimal digits denotes after the digits denoting `acc`. -/
def digitsFrom (acc : Nat) (ds : List Byte) : Nat :=
  ds.foldl (fun a c => a * 10 + (c.val - 48)) acc

/-- The number a sequence of decimal digits denotes. -/
def digitsValue (ds : List Byte) : Nat := digitsFrom 0 ds

/-- A valid base-10 integer literal: an optional single leading `'+'` or `'-'` followed by
one or more decimal digits and nothing else. -/
def isIntLiteral (s : GoString) : Bool :=
  match s with
  | [] => false
  | c :: tl =>
    if isSign c then (!tl.isEmpty && tl.all isDigit) else s.all isDigit

/-- The signed integer a base-10 integer literal denotes. -/
def literalValue (s : GoString) : Int :=
  match s with
  | [] => 0
  | c :: tl =>
    if c.val = 45 then -(digitsValue tl : Int)
    else if c.val = 43 then (digitsValue tl : Int)
    else (digitsValue s : Int)

/-- The string `ParseInt` hands to `ParseUint`: the input without its leading sign. -/
def unsignedPart (c : Byte) (tl : List Byte) : GoString :=
  if c.val = 43 then tl else if c.val = 45 then tl else c :: tl

/-! ## Arithmetic of `int` -/

theorem wrapInt_of_isInt (z : Int) (hz : isInt z) : wrapInt z = z := by
  unfold isInt at hz
  unfold wrapInt
  omega

theorem isInt_wrapInt (z : Int) : isInt (wrapInt z) := by
  unfold isInt wrapInt
  omega

/-! ## Digit sequences -/

theorem isDigit_iff (c : Byte) : isDigit c = true ↔ 48 ≤ c.val ∧ c.val ≤ 57 := by
  simp [isDigit]

theorem isDigit_false_iff (c : Byte) : isDigit c = false ↔ ¬ (48 ≤ c.val ∧ c.val ≤ 57) := by
  simp [isDigit]

theorem digitsFrom_cons (acc : Nat) (c : Byte) (rest : List Byte) :
    digitsFrom acc (c :: rest) = digitsFrom (acc * 10 + (c.val - 48)) rest := rfl

theorem le_digitsFrom (ds : List Byte) : ∀ acc : Nat, acc ≤ digitsFrom acc ds := by
  induction ds with
  | nil => intro acc; exact le_refl _
  | cons c rest ih =>
    intro acc
    rw [digitsFrom_cons]
    have := ih (acc * 10 + (c.val - 48))
    omega

theorem digitsFrom_lt (ds : List Byte) (hd : ds.all isDigit = true) :
    ∀ acc : Nat, digitsFrom acc ds < (acc + 1) * 10 ^ ds.length := by
  induction ds with
  | nil => intro acc; simp [digitsFrom]
  | cons c rest ih =>
    intro acc
    rw [List.all_cons, Bool.and_eq_true] at hd
    have hc := (isDigit_iff c).1 hd.1
    rw [digitsFrom_cons, List.length_cons, pow_succ]
    have h1 := ih hd.2 (acc * 10 + (c.val - 48))
    have h2 : (acc * 10 + (c.val - 48) + 1) * 10 ^ rest.length
        ≤ ((acc + 1) * 10) * 10 ^ rest.length :=
      Nat.mul_le_mul_right _ (by omega)
    calc digitsFrom (acc * 10 + (c.val - 48)) rest
        < (acc * 10 + (c.val - 48) + 1) * 10 ^ rest.length := h1
      _ ≤ ((acc + 1) * 10) * 10 ^ rest.length := h2
      _ = (acc + 1) * (10 ^ rest.length * 10) := by ring

theorem digitsValue_lt_of_length (ds : List Byte) (hd : ds.all isDigit = true)
    (hl : ds.length ≤ 18) : digitsValue ds < 10 ^ 18 := by
  have h1 := digitsFrom_lt ds hd 0
  have h2 : 10 ^ ds.length ≤ 10 ^ 18 := Nat.pow_le_pow_right (by norm_num) hl
  unfold digitsValue
  omega

/-! ## The loops of `strconv` -/

theorem digitVal_of_isDigit (c : Byte) (hc : isDigit c = true) :
    digitVal c = some (c.val - 48) := by
  rw [isDigit_iff] at hc
  simp [digitVal, hc]

theorem digitVal_of_not_isDigit (c : Byte) (hc : isDigit c = false) :
    digitVal c = none ∨ ∃ d, 10 ≤ d ∧ digitVal c = some d := by
  rw [isDigit_false_iff] at hc
  unfold digitVal
  rw [if_neg hc]
  by_cases hl : 97 ≤ lower c ∧ lower c ≤ 122
  · rw [if_pos hl]
    exact Or.inr ⟨_, by omega, rfl⟩
  · rw [if_neg hl]
    exact Or.inl rfl

theorem parseUintLoop_cons_digit (c : Byte) (rest : List Byte) (n : Nat)
    (hc : isDigit c = true) :
    parseUintLoop (c :: rest) n =
      if 1844674407370955162 ≤ n ∨ 18446744073709551616 ≤ n * 10 + (c.val - 48) then
        (maxUint64, some NumError.ErrRange)
      else parseUintLoop rest (n * 10 + (c.val - 48)) := by
  have hc9 := (isDigit_iff c).1 hc
  simp only [parseUintLoop, digitVal_of_isDigit c hc, maxUint64, intSize]
  norm_num
  rw [if_neg (by omega)]
  by_cases hcut : 1844674407370955162 ≤ n
  · rw [if_pos hcut, if_pos (Or.inl hcut)]
  · rw [if_neg hcut]
    have h10 : n * 10 % 18446744073709551616 = n * 10 := Nat.mod_eq_of_lt (by omega)
    rw [h10]
    by_cases hov : n * 10 + (c.val - 48) < 18446744073709551616
    · rw [Nat.mod_eq_of_lt hov, if_neg (by omega), if_neg (by omega)]
    · rw [if_pos (by omega), if_pos (by omega)]

theorem parseUintLoop_cons_not_digit (c : Byte) (rest : List Byte) (n : Nat)
    (hc : isDigit c = false) :
    parseUintLoop (c :: rest) n = (0, some NumError.ErrSyntax) := by
  rcases digitVal_of_not_isDigit c hc with hnone | ⟨d, hd10, hsome⟩
  · simp only [parseUintLoop, hnone]
  · simp only [parseUintLoop, hsome]
    rw [if_pos (by omega)]

theorem parseUintLoop_digits (ds : List Byte) (hd : ds.all isDigit = true) :
    ∀ n : Nat, n < 2 ^ 64 →
      parseUintLoop ds n =
        if digitsFrom n ds < 2 ^ 64 then (digitsFrom n ds, none)
        else (maxUint64, some NumError.ErrRange) := by
  induction ds with
  | nil =>
    intro n hn
    rw [show digitsFrom n [] = n from rfl, if_pos hn]
    rfl
  | cons c rest ih =>
    intro n hn
    rw [List.all_cons, Bool.and_eq_true] at hd
    have hc := (isDigit_iff c).1 hd.1
    have hmono := le_digitsFrom rest (n * 10 + (c.val - 48))
    rw [digitsFrom_cons, parseUintLoop_cons_digit c rest n hd.1]
    by_cases hov : 1844674407370955162 ≤ n ∨ 18446744073709551616 ≤ n * 10 + (c.val - 48)
    · rw [if_pos hov, if_neg (by omega)]
    · rw [if_neg hov]
      exact ih hd.2 _ (by omega)

theorem parseUintLoop_not_digits (ds : List Byte) (hd : ds.all isDigit = false) :
    ∀ n : Nat, parseUintLoop ds n = (0, some NumError.ErrSyntax) ∨
      parseUintLoop ds n = (maxUint64, some NumError.ErrRange) := by
  induction ds with
  | nil => simp at hd
  | cons c rest ih =>
    intro n
    by_cases hc : isDigit c = true
    · have hrest : rest.all isDigit = false := by
        rw [List.all_cons, hc, Bool.true_and] at hd
        exact hd
      rw [parseUintLoop_cons_digit c rest n hc]
      split
      · exact Or.inr rfl
      · exact ih hrest _
    · have hc0 : isDigit c = false := by simpa using hc
      exact Or.inl (parseUintLoop_cons_not_digit c rest n hc0)

theorem atoiLoop_digits (ds : List Byte) (hd : ds.all isDigit = true) :
    ∀ n : Nat, digitsFrom n ds < 2 ^ 63 →
      atoiLoop ds (n : Int) = (((digitsFrom n ds : Nat) : Int), none) := by
  induction ds with
  | nil => intro n _; rfl
  | cons c rest ih =>
    intro n hlt
    rw [List.all_cons, Bool.and_eq_true] at hd
    have hc := (isDigit_iff c).1 hd.1
    rw [digitsFrom_cons] at hlt ⊢
    have hmono := le_digitsFrom rest (n * 10 + (c.val - 48))
    have hdig : (c.val + 256 - 48) % 256 = c.val - 48 := by omega
    have hstep : addInt (mulInt (n : Int) 10) ((c.val - 48 : Nat) : Int)
        = ((n * 10 + (c.val - 48) : Nat) : Int) := by
      have h1 : mulInt (n : Int) 10 = (n : Int) * 10 := by
        unfold mulInt
        apply wrapInt_of_isInt
        unfold isInt
        omega
      rw [h1]
      unfold addInt
      rw [wrapInt_of_isInt]
      · push_cast; rfl
      · unfold isInt
        omega
    simp only [atoiLoop, hdig]
    rw [if_neg (by omega), hstep]
    exact ih hd.2 _ hlt

theorem atoiLoop_not_digits (ds : List Byte) (hd : ds.all isDigit = false) :
    ∀ n : Int, atoiLoop ds n = (0, some NumError.ErrSyntax) := by
  induction ds with
  | nil => simp at hd
  | cons c rest ih =>
    intro n
    by_cases hc : isDigit c = true
    · have hrest : rest.all isDigit = false := by
        rw [List.all_cons, hc, Bool.true_and] at hd
        exact hd
      have hc9 := (isDigit_iff c).1 hc
      simp only [atoiLoop]
      rw [if_neg (by omega)]
      exact ih hrest _
    · have hc0 : isDigit c = false := by simpa using hc
      rw [isDigit_false_iff] at hc0
      have hlt := c.isLt
      simp only [atoiLoop]
      rw [if_pos (by omega)]

/-! ## `ParseUint` and `ParseInt` -/

theorem ParseUint_digits (ds : List Byte) (hne : ds ≠ []) (hd : ds.all isDigit = true) :
    ParseUint ds =
      if digitsValue ds < 2 ^ 64 then (digitsValue ds, none)
      else (maxUint64, some NumError.ErrRange) := by
  unfold ParseUint
  rw [if_neg hne]
  exact parseUintLoop_digits ds hd 0 (by norm_num)

theorem ParseUint_not_digits (ds : List Byte) (hd : ds = [] ∨ ds.all isDigit = false) :
    ParseUint ds = (0, some NumError.ErrSyntax) ∨
      ParseUint ds = (maxUint64, some NumError.ErrRange) := by
  unfold ParseUint
  by_cases hne : ds = []
  · rw [if_pos hne]; exact Or.inl rfl
  · rw [if_neg hne]
    rcases hd with h | h
    · exact absurd h hne
    · exact parseUintLoop_not_digits ds h 0

theorem ParseInt_of_ParseUint_syntaxErr (c : Byte) (tl : List Byte) (un : Nat)
    (hu : ParseUint (unsignedPart c tl) = (un, some NumError.ErrSyntax)) :
    ParseInt (c :: tl) = (0, some NumError.ErrSyntax) := by
  unfold unsignedPart at hu
  simp only [ParseInt, hu]

theorem ParseInt_of_ParseUint_range (c : Byte) (tl : List Byte)
    (hu : ParseUint (unsignedPart c tl) = (maxUint64, some NumError.ErrRange)) :
    ParseInt (c :: tl) =
      (if c.val = 45 then -2 ^ 63 else 2 ^ 63 - 1, some NumError.ErrRange) := by
  unfold unsignedPart at hu
  simp only [ParseInt, hu, maxUint64, intSize, negInt, wrapInt]
  by_cases h45 : c.val = 45
  · simp [h45]
  · simp [h45]

theorem ParseInt_of_ParseUint_ok (c : Byte) (tl : List Byte) (un : Nat)
    (hu : ParseUint (unsignedPart c tl) = (un, none)) :
    ParseInt (c :: tl) =
      if c.val = 45 then
        (if 2 ^ 63 < un then (-2 ^ 63, some NumError.ErrRange) else (-(un : Int), none))
      else
        (if 2 ^ 63 ≤ un then (2 ^ 63 - 1, some NumError.ErrRange) else ((un : Int), none)) := by
  unfold unsignedPart at hu
  simp only [ParseInt, hu, intSize, negInt]
  by_cases h45 : c.val = 45
  · have hneg : decide (c.val ≠ 43 ∧ c.val = 45) = true := by
      rw [decide_eq_true_eq]; omega
    rw [hneg, if_pos h45]
    by_cases hgt : 2 ^ 63 < un
    · have e1 : wrapInt (-wrapInt ((2 ^ (64 - 1) : Nat) : Int)) = -2 ^ 63 := by
        unfold wrapInt; norm_num
      rw [if_neg (by simp), if_pos ⟨rfl, hgt⟩, if_pos hgt, e1]
    · have e2 : wrapInt (-wrapInt (un : Int)) = -(un : Int) := by
        unfold wrapInt
        omega
      rw [if_neg (by simp), if_neg (fun hh => hgt hh.2), if_neg hgt, if_pos rfl, e2]
  · have hneg : decide (c.val ≠ 43 ∧ c.val = 45) = false := by
      rw [decide_eq_false_iff_not]; omega
    rw [hneg, if_neg h45]
    by_cases hge : 2 ^ 63 ≤ un
    · have e1 : wrapInt (((2 ^ (64 - 1) : Nat) : Int) - 1) = 2 ^ 63 - 1 := by
        unfold wrapInt; norm_num
      rw [if_pos ⟨rfl, hge⟩, if_pos hge, e1]
    · have e2 : wrapInt (un : Int) = (un : Int) := by
        unfold wrapInt
        omega
      rw [if_neg (fun hh => hge hh.2), if_neg (by simp), if_neg hge, if_neg (by simp), e2]

/-! ## Literals and their unsigned part -/

theorem unsignedPart_length_le (c : Byte) (tl : List Byte) :
    (unsignedPart c tl).length ≤ (c :: tl).length := by
  unfold unsignedPart
  split_ifs <;> simp

theorem isIntLiteral_cons (c : Byte) (tl : List Byte) :
    isIntLiteral (c :: tl) = true ↔
      unsignedPart c tl ≠ [] ∧ (unsignedPart c tl).all isDigit = true := by
  unfold isIntLiteral unsignedPart isSign
  by_cases h43 : c.val = 43
  · simp [h43]
  · by_cases h45 : c.val = 45
    · simp [h45]
    · simp [h43, h45]

theorem literalValue_cons (c : Byte) (tl : List Byte) :
    literalValue (c :: tl) =
      if c.val = 45 then -(digitsValue (unsignedPart c tl) : Int)
      else (digitsValue (unsignedPart c tl) : Int) := by
  unfold literalValue unsignedPart
  by_cases h45 : c.val = 45
  · have h43 : ¬ c.val = 43 := by omega
    simp [h45, h43]
  · by_cases h43 : c.val = 43
    · simp [h43]
    · simp [h43, h45]

/-! ## `Atoi` -/

theorem Atoi_slow (s : GoString) (hlen : s.length = 0 ∨ 19 ≤ s.length) :
    Atoi s = (wrapInt (ParseInt s).1, (ParseInt s).2) := by
  unfold Atoi
  simp only [intSize]
  rw [if_neg (by omega)]

theorem Atoi_fast (c : Byte) (tl : List Byte) (hlen : (c :: tl).length < 19) :
    Atoi (c :: tl) =
      if (c.val = 45 ∨ c.val = 43) ∧ unsignedPart c tl = [] then (0, some NumError.ErrSyntax)
      else
        match atoiLoop (unsignedPart c tl) 0 with
        | (_, some e) => (0, some e)
        | (n, none) => (if c.val = 45 then negInt n else n, none) := by
  have hpos : 0 < (c :: tl).length := by simp
  unfold Atoi
  simp only [intSize]
  rw [if_pos (Or.inr ⟨trivial, hpos, hlen⟩)]
  unfold unsignedPart
  by_cases h43 : c.val = 43
  · have h45 : ¬ c.val = 45 := by omega
    cases tl <;> simp [h43, h45]
  · by_cases h45 : c.val = 45
    · cases tl <;> simp [h45]
    · simp [h43, h45]

theorem negInt_natCast (v : Nat) (hv : v ≤ 2 ^ 63) : wrapInt (-(v : Int)) = -(v : Int) := by
  unfold wrapInt
  omega

theorem Atoi_of_literal_inRange (s : GoString) (hl : isIntLiteral s = true)
    (hr : isInt (literalValue s)) : Atoi s = (literalValue s, none) := by
  cases s with
  | nil => simp [isIntLiteral] at hl
  | cons c tl =>
    obtain ⟨hne, hd⟩ := (isIntLiteral_cons c tl).1 hl
    rw [literalValue_cons] at hr ⊢
    by_cases hlen : (c :: tl).length < 19
    · have hul := unsignedPart_length_le c tl
      have hv : digitsValue (unsignedPart c tl) < 10 ^ 18 :=
        digitsValue_lt_of_length _ hd (by omega)
      have hloop : atoiLoop (unsignedPart c tl) 0
          = ((digitsValue (unsignedPart c tl) : Int), none) := by
        have := atoiLoop_digits _ hd 0 (by unfold digitsValue at hv; omega)
        simpa [digitsValue] using this
      rw [Atoi_fast c tl hlen, if_neg (fun hh => hne hh.2), hloop]
      by_cases h45 : c.val = 45
      · simp only [h45, if_true, negInt]
        rw [negInt_natCast _ (by omega)]
      · simp only [h45, if_false]
    · rw [Atoi_slow _ (Or.inr (by omega))]
      have hpu := ParseUint_digits _ hne hd
      unfold isInt at hr
      by_cases h45 : c.val = 45
      · rw [if_pos h45] at hr ⊢
        have hle : digitsValue (unsignedPart c tl) ≤ 2 ^ 63 := by omega
        rw [if_pos (by omega)] at hpu
        rw [ParseInt_of_ParseUint_ok c tl _ hpu, if_pos h45, if_neg (by omega)]
        simp only
        rw [negInt_natCast _ hle]
      · rw [if_neg h45] at hr ⊢
        have hlt : digitsValue (unsignedPart c tl) < 2 ^ 63 := by omega
        rw [if_pos (by omega)] at hpu
        rw [ParseInt_of_ParseUint_ok c tl _ hpu, if_neg h45, if_neg (by omega)]
        simp only
        rw [wrapInt_of_isInt]
        unfold isInt
        omega

theorem Atoi_of_literal_outOfRange (s : GoString) (hl : isIntLiteral s = true)
    (hr : ¬ isInt (literalValue s)) : (Atoi s).2 = some NumError.ErrRange := by
  cases s with
  | nil => simp [isIntLiteral] at hl
  | cons c tl =>
    obtain ⟨hne, hd⟩ := (isIntLiteral_cons c tl).1 hl
    rw [literalValue_cons] at hr
    unfold isInt at hr
    by_cases hlen : (c :: tl).length < 19
    · exfalso
      have hul := unsignedPart_length_le c tl
      have hv : digitsValue (unsignedPart c tl) < 10 ^ 18 :=
        digitsValue_lt_of_length _ hd (by omega)
      apply hr
      split_ifs <;> omega
    · rw [Atoi_slow _ (Or.inr (by omega))]
      have hpu := ParseUint_digits _ hne hd
      by_cases hbig : digitsValue (unsignedPart c tl) < 2 ^ 64
      · rw [if_pos hbig] at hpu
        rw [ParseInt_of_ParseUint_ok c tl _ hpu]
        by_cases h45 : c.val = 45
        · rw [if_pos h45] at hr ⊢
          rw [if_pos (by omega)]
        · rw [if_neg h45] at hr ⊢
          rw [if_pos (by omega)]
      · rw [if_neg hbig] at hpu
        rw [ParseInt_of_ParseUint_range c tl hpu]

theorem Atoi_of_not_literal (s : GoString) (hl : isIntLiteral s = false) :
    (Atoi s).2 ≠ none := by
  cases s with
  | nil =>
    rw [Atoi_slow [] (Or.inl List.length_nil)]
    simp [ParseInt]
  | cons c tl =>
    have hnl : ¬ (unsignedPart c tl ≠ [] ∧ (unsignedPart c tl).all isDigit = true) := by
      rw [← isIntLiteral_cons, hl]
      simp
    have hcase : unsignedPart c tl = [] ∨ (unsignedPart c tl).all isDigit = false := by
      by_cases he : unsignedPart c tl = []
      · exact Or.inl he
      · right
        cases hall : (unsignedPart c tl).all isDigit
        · rfl
        · exact absurd ⟨he, hall⟩ hnl
    by_cases hlen : (c :: tl).length < 19
    · rw [Atoi_fast c tl hlen]
      by_cases hsig : (c.val = 45 ∨ c.val = 43) ∧ unsignedPart c tl = []
      · rw [if_pos hsig]
        simp
      · rw [if_neg hsig]
        have hd : (unsignedPart c tl).all isDigit = false := by
          rcases hcase with he | hd
          · exfalso
            apply hsig
            refine ⟨?_, he⟩
            unfold unsignedPart at he
            split_ifs at he <;> omega
          · exact hd
        rw [atoiLoop_not_digits _ hd 0]
        simp
    · rw [Atoi_slow _ (Or.inr (by omega))]
      rcases ParseUint_not_digits _ hcase with hsyn | hrng
      · rw [ParseInt_of_ParseUint_syntaxErr c tl _ hsyn]
        simp
      · rw [ParseInt_of_ParseUint_range c tl hrng]
        simp

/-! ## The word table -/

theorem lookup_words_none (n : Int) (hn : n < 0 ∨ 10 < n) : words.lookup n = none := by
  have hne : ∀ m : Int, 0 ≤ m → m ≤ 10 → (n == m) = false := by
    intro m h0 h10
    simp only [beq_eq_false_iff_ne, ne_eq]
    omega
  simp [words, List.lookup, hne]

theorem h_eq_spelling (n : Int) (h0 : 0 ≤ n) (h10 : n ≤ 10) : h n = spelling n := by
  interval_cases n <;> rfl

/-! ## The decorator -/

theorem Decorator_of_ok (f : InnerFunc) (s : GoString) (n : Int) (hk : k s = (n, none)) :
    Decorator f s = h (f n) := by
  simp [Decorator, hk]

theorem Decorator_of_err (f : InnerFunc) (s : GoString) (hk : (k s).2 ≠ none) :
    Decorator f s = str "" := by
  unfold Decorator
  rcases hks : k s with ⟨n, _ | e⟩
  · rw [hks] at hk; exact absurd rfl hk
  · rfl

theorem A_of_small (n : Int) (h0 : 0 ≤ n) (h5 : n ≤ 5) : A n = 2 * n := by
  unfold A mulInt
  rw [wrapInt_of_isInt]
  · ring
  · unfold isInt
    omega

theorem DecoratorS_pure {σ : Type} (f : InnerFunc) (s : GoString) (st : σ) :
    DecoratorS (fun x t => (f x, t)) s st = (Decorator f s, st) := by
  unfold DecoratorS Decorator
  rcases hks : k s with ⟨n, _ | e⟩ <;> rfl

theorem DecoratorS_recording_fst (f : InnerFunc) (s : GoString) (log : List Int) :
    (DecoratorS (recording f) s log).1 = Decorator f s := by
  unfold DecoratorS Decorator recording
  rcases hks : k s with ⟨n, _ | e⟩ <;> rfl

theorem DecoratorS_recording_of_ok (f : InnerFunc) (s : GoString) (n : Int) (log : List Int)
    (hk : k s = (n, none)) :
    DecoratorS (recording f) s log = (h (f n), log ++ [n]) := by
  simp [DecoratorS, recording, hk]

theorem DecoratorS_of_err {σ : Type} (inner : InnerFuncS σ) (s : GoString) (st : σ)
    (hk : (k s).2 ≠ none) : DecoratorS inner s st = (str "", st) := by
  unfold DecoratorS
  rcases hks : k s with ⟨n, _ | e⟩
  · rw [hks] at hk; exact absurd rfl hk
  · rfl

/-! ## Results of `k` are values of `int` -/

theorem atoiLoop_isInt (ds : List Byte) :
    ∀ n : Int, isInt n → isInt (atoiLoop ds n).1 := by
  induction ds with
  | nil => intro n hn; exact hn
  | cons c rest ih =>
    intro n _
    simp only [atoiLoop]
    split
    · unfold isInt; norm_num
    · exact ih _ (isInt_wrapInt _)

theorem k_isInt (s : GoString) : isInt (k s).1 := by
  unfold k
  by_cases hlen : s.length = 0 ∨ 19 ≤ s.length
  · rw [Atoi_slow s hlen]
    exact isInt_wrapInt _
  · cases s with
    | nil => simp at hlen
    | cons c tl =>
      rw [Atoi_fast c tl (by omega)]
      have hz : isInt 0 := by unfold isInt; norm_num
      have hloop := atoiLoop_isInt (unsignedPart c tl) 0 hz
      split
      · exact hz
      · rcases hres : atoiLoop (unsignedPart c tl) 0 with ⟨n, _ | e⟩
        · rw [hres] at hloop
          simp only
          split
          · exact isInt_wrapInt _
          · exact hloop
        · exact hz

/-! ## The word table, continued -/

theorem h_ne_empty (n : Int) (h0 : 0 ≤ n) (h10 : n ≤ 10) : h n ≠ str "" := by
  interval_cases n <;> decide

theorem h_injOn (m n : Int) (hm0 : 0 ≤ m) (hm10 : m ≤ 10) (hn0 : 0 ≤ n) (hn10 : n ≤ 10)
    (hmn : h m = h n) : m = n := by
  interval_cases m <;> interval_cases n <;> first | rfl | (exact absurd hmn (by decide))

theorem h_eq_empty_iff (n : Int) : h n = str "" ↔ (n < 0 ∨ 10 < n) := by
  constructor
  · intro he
    by_contra hcon
    exact h_ne_empty n (by omega) (by omega) he
  · intro hn
    unfold h
    rw [lookup_words_none n hn]

theorem h_mem_outputs (n : Int) : h n ∈ outputs := by
  by_cases hn : n < 0 ∨ 10 < n
  · rw [(h_eq_empty_iff n).2 hn]
    decide
  · have h0 : 0 ≤ n := by omega
    have h10 : n ≤ 10 := by omega
    interval_cases n <;> decide

/-! ## The claims -/

/-- Claim C1: for every inner function `f` and every string `s` on which `k` succeeds with
value `n`, `Decorator f s` equals `h (f n)`: on parseable input the decorated function is
the composition `h ∘ f ∘ k`. -/
theorem C1_decorator_is_composition (f : InnerFunc) (s : GoString) (n : Int)
    (hk : k s = (n, none)) : Decorator f s = h (f n) :=
  Decorator_of_ok f s n hk

theorem C1_decorator_is_composition_witness :
    k (str "2") = (2, none) ∧ Decorator A (str "2") = h (A 2) :=
  ⟨by decide, C1_decorator_is_composition A (str "2") 2 (by decide)⟩

/-- Claim C2: for every inner function `f` and every string `s` on which `k` returns an
error, `Decorator f s` is the empty string: the parse error is swallowed. -/
theorem C2_parse_error_gives_empty (f : InnerFunc) (s : GoString)
    (hk : (k s).2 ≠ none) : Decorator f s = str "" :=
  Decorator_of_err f s hk

theorem C2_parse_error_gives_empty_witness :
    (k (str "not-a-number")).2 ≠ none ∧
      Decorator (fun x => mulInt x 2) (str "not-a-number") = str "" :=
  ⟨by decide, C2_parse_error_gives_empty (fun x => mulInt x 2) (str "not-a-number") (by decide)⟩

/-- Claim C3: for every string `s` that `k` parses to `n` with `0 ≤ n ≤ 10` and every inner
function `f` with `0 ≤ f n ≤ 10`, `Decorator f s` is the English-word spelling of `f n`. -/
theorem C3_decorator_spells_result (f : InnerFunc) (s : GoString) (n : Int)
    (hk : k s = (n, none)) (_hn0 : 0 ≤ n) (_hn10 : n ≤ 10)
    (hf0 : 0 ≤ f n) (hf10 : f n ≤ 10) : Decorator f s = spelling (f n) := by
  rw [Decorator_of_ok f s n hk]
  exact h_eq_spelling (f n) hf0 hf10

theorem C3_decorator_spells_result_witness :
    (k (str "2") = (2, none) ∧ Decorator (fun _ => 4) (str "2") = spelling 4 ∧
        spelling 4 = str "four") ∧
      (k (str "1") = (1, none) ∧ Decorator (fun _ => 8) (str "1") = spelling 8 ∧
        spelling 8 = str "eight") :=
  ⟨⟨by decide,
      C3_decorator_spells_result (fun _ => 4) (str "2") 2 (by decide) (by decide) (by decide)
        (by decide) (by decide),
      by decide⟩,
    ⟨by decide,
      C3_decorator_spells_result (fun _ => 8) (str "1") 1 (by decide) (by decide) (by decide)
        (by decide) (by decide),
      by decide⟩⟩

/-- Claim C4: for every inner function `f` and every string `s` on which `k` succeeds with
value `n`, if `f n < 0` or `f n > 10` then `Decorator f s` is the empty string. -/
theorem C4_out_of_range_gives_empty (f : InnerFunc) (s : GoString) (n : Int)
    (hk : k s = (n, none)) (hf : f n < 0 ∨ 10 < f n) : Decorator f s = str "" := by
  rw [Decorator_of_ok f s n hk]
  unfold h
  rw [lookup_words_none (f n) hf]

theorem C4_out_of_range_gives_empty_witness :
    k (str "6") = (6, none) ∧ (A 6 < 0 ∨ 10 < A 6) ∧ Decorator A (str "6") = str "" :=
  ⟨by decide, by decide,
    C4_out_of_range_gives_empty A (str "6") 6 (by decide) (by decide)⟩

/-- Claim C5: for every integer `n` with `0 ≤ n ≤ 10`, `h n` is the English-word spelling
of `n`: zero, one, two, three, four, five, six, seven, eight, nine, ten. -/
theorem C5_h_spells_zero_to_ten :
    h 0 = str "zero" ∧ h 1 = str "one" ∧ h 2 = str "two" ∧ h 3 = str "three" ∧
      h 4 = str "four" ∧ h 5 = str "five" ∧ h 6 = str "six" ∧ h 7 = str "seven" ∧
      h 8 = str "eight" ∧ h 9 = str "nine" ∧ h 10 = str "ten" := by
  decide

/-- Claim C6: for every integer `n` with `n < 0` or `n > 10`, `h n` is the empty string. -/
theorem C6_h_empty_outside_range (n : Int) (hn : n < 0 ∨ 10 < n) : h n = str "" := by
  unfold h
  rw [lookup_words_none n hn]

theorem C6_h_empty_outside_range_witness :
    (((11 : Int) < 0 ∨ (10 : Int) < 11) ∧ h 11 = str "") ∧
      (((-1 : Int) < 0 ∨ (10 : Int) < -1) ∧ h (-1) = str "") :=
  ⟨⟨by decide, C6_h_empty_outside_range 11 (by decide)⟩,
    ⟨by decide, C6_h_empty_outside_range (-1) (by decide)⟩⟩

/-- Claim C7, as stated, fails: the literal 9223372036854775808 (that is `2^63`) is a valid
base-10 integer literal, yet `k` returns a range error on it instead of the denoted value. -/
theorem C7_counterexample :
    isIntLiteral (str "9223372036854775808") = true ∧
      literalValue (str "9223372036854775808") = 9223372036854775808 ∧
      k (str "9223372036854775808") = (9223372036854775807, some NumError.ErrRange) := by
  decide

/-- Claim C7, amended: for every string `s` that is a valid base-10 integer literal (an
optional single leading sign followed by one or more decimal digits and nothing else) whose
denoted value fits the Go type `int`, `k s` succeeds and returns the denoted integer. -/
theorem C7_k_parses_literal_in_range (s : GoString) (hl : isIntLiteral s = true)
    (hr : isInt (literalValue s)) : k s = (literalValue s, none) :=
  Atoi_of_literal_inRange s hl hr

theorem C7_k_parses_literal_in_range_witness :
    isIntLiteral (str "-9223372036854775808") = true ∧
      isInt (literalValue (str "-9223372036854775808")) ∧
      k (str "-9223372036854775808") = (literalValue (str "-9223372036854775808"), none) ∧
      literalValue (str "-9223372036854775808") = -9223372036854775808 :=
  ⟨by decide, by decide,
    C7_k_parses_literal_in_range (str "-9223372036854775808") (by decide) (by decide),
    by decide⟩

/-- Claim C8: for every string `s` that is not an optional single sign followed by one or
more decimal digits, `k s` returns an error; this covers the empty string, a lone sign,
leading or trailing whitespace, embedded separators and any non-digit character. -/
theorem C8_k_rejects_non_literal (s : GoString) (hl : isIntLiteral s = false) :
    (k s).2 ≠ none :=
  Atoi_of_not_literal s hl

theorem C8_k_rejects_non_literal_witness :
    (isIntLiteral (str "") = false ∧ (k (str "")).2 ≠ none) ∧
      (isIntLiteral (str "+") = false ∧ (k (str "+")).2 ≠ none) ∧
      (isIntLiteral (str "-") = false ∧ (k (str "-")).2 ≠ none) ∧
      (isIntLiteral (str " 1") = false ∧ (k (str " 1")).2 ≠ none) ∧
      (isIntLiteral (str "1 ") = false ∧ (k (str "1 ")).2 ≠ none) ∧
      (isIntLiteral (str "1_0") = false ∧ (k (str "1_0")).2 ≠ none) ∧
      (isIntLiteral (str "1,0") = false ∧ (k (str "1,0")).2 ≠ none) ∧
      (isIntLiteral (str "not-a-number") = false ∧ (k (str "not-a-number")).2 ≠ none) :=
  ⟨⟨by decide, C8_k_rejects_non_literal (str "") (by decide)⟩,
    ⟨by decide, C8_k_rejects_non_literal (str "+") (by decide)⟩,
    ⟨by decide, C8_k_rejects_non_literal (str "-") (by decide)⟩,
    ⟨by decide, C8_k_rejects_non_literal (str " 1") (by decide)⟩,
    ⟨by decide, C8_k_rejects_non_literal (str "1 ") (by decide)⟩,
    ⟨by decide, C8_k_rejects_non_literal (str "1_0") (by decide)⟩,
    ⟨by decide, C8_k_rejects_non_literal (str "1,0") (by decide)⟩,
    ⟨by decide, C8_k_rejects_non_literal (str "not-a-number") (by decide)⟩⟩

/-- Claim C9, as stated, fails: `2^62` is a value of the Go type `int`, and `A` maps it to
`-2^63`, not to `2 * 2^62 = 2^63`. -/
theorem C9_counterexample :
    isInt 4611686018427387904 ∧ A 4611686018427387904 = -9223372036854775808 ∧
      A 4611686018427387904 ≠ 2 * 4611686018427387904 := by
  decide

/-- Claim C9, amended: for every `x` of the Go type `int`, `A x` is again an `int`, it is
congruent to `2 * x` modulo `2^64`, and it equals `2 * x` exactly when
`-2^62 ≤ x < 2^62`, that is when `2 * x` is itself an `int`. -/
theorem C9_A_doubles_modulo (x : Int) (hx : isInt x) :
    isInt (A x) ∧ (A x - 2 * x) % 2 ^ 64 = 0 ∧
      (A x = 2 * x ↔ (-2 ^ 62 ≤ x ∧ x < 2 ^ 62)) := by
  unfold isInt at hx
  unfold A mulInt isInt wrapInt
  refine ⟨?_, ?_, ?_⟩ <;> omega

theorem C9_A_doubles_modulo_witness :
    isInt 21 ∧ (isInt (A 21) ∧ (A 21 - 2 * 21) % 2 ^ 64 = 0 ∧
      (A 21 = 2 * 21 ↔ (-2 ^ 62 ≤ (21 : Int) ∧ (21 : Int) < 2 ^ 62))) :=
  ⟨by decide, C9_A_doubles_modulo 21 (by decide)⟩

/-- Claim C10: for every string `s` that `k` parses to `n` with `0 ≤ n ≤ 5`,
`Decorator A s` is the English word of the doubled value `2 * n`. -/
theorem C10_decorated_A_spells_double (s : GoString) (n : Int) (hk : k s = (n, none))
    (h0 : 0 ≤ n) (h5 : n ≤ 5) : Decorator A s = spelling (2 * n) := by
  rw [Decorator_of_ok A s n hk, A_of_small n h0 h5]
  exact h_eq_spelling (2 * n) (by omega) (by omega)

theorem C10_decorated_A_spells_double_witness :
    k (str "2") = (2, none) ∧ Decorator A (str "2") = spelling (2 * 2) ∧
      spelling (2 * 2) = str "four" :=
  ⟨by decide, C10_decorated_A_spells_double (str "2") 2 (by decide) (by decide) (by decide),
    by decide⟩

/-- Claim C11: for every string `s` that `k` parses to `n` and every inner function that
records its calls in a log, running the decorated function invokes the inner function
exactly once, with argument `n`: started on the empty log, the log afterwards is `[n]`
(and started on any log, exactly `n` is appended). -/
theorem C11_inner_called_once_with_parsed (f : InnerFunc) (s : GoString) (n : Int)
    (hk : k s = (n, none)) :
    (DecoratorS (recording f) s []).2 = [n] ∧
      ∀ log : List Int, DecoratorS (recording f) s log = (h (f n), log ++ [n]) := by
  refine ⟨?_, fun log => DecoratorS_recording_of_ok f s n log hk⟩
  rw [DecoratorS_recording_of_ok f s n [] hk]
  rfl

theorem C11_inner_called_once_with_parsed_witness :
    k (str "2") = (2, none) ∧
      ((DecoratorS (recording (fun _ => 4)) (str "2") []).2 = [2] ∧
        ∀ log : List Int,
          DecoratorS (recording (fun _ => 4)) (str "2") log = (h 4, log ++ [2])) :=
  ⟨by decide, C11_inner_called_once_with_parsed (fun _ => 4) (str "2") 2 (by decide)⟩

/-- Claim C12, as stated, fails: `k` parses the literal -9223372036854775808 to
`n = -2^63 < 0`, the product `n * 2` wraps around to `0`, and the decorated `A` returns
the word for zero, not the empty string. -/
theorem C12_counterexample :
    k (str "-9223372036854775808") = (-9223372036854775808, none) ∧
      ((-9223372036854775808 : Int) < 0 ∨ (5 : Int) < -9223372036854775808) ∧
      A (-9223372036854775808) = 0 ∧
      Decorator A (str "-9223372036854775808") = str "zero" ∧
      Decorator A (str "-9223372036854775808") ≠ str "" := by
  decide

/-- Claim C12, amended: for every string `s` that `k` parses to `n` with `n > 5` or
`-2^63 + 5 < n < 0`, `Decorator A s` is the empty string, because the doubled value, as
`A` computes it, lies outside `[0, 10]`. -/
theorem C12_decorated_A_empty_outside (s : GoString) (n : Int) (hk : k s = (n, none))
    (hn : 5 < n ∨ (-2 ^ 63 + 5 < n ∧ n < 0)) :
    (A n < 0 ∨ 10 < A n) ∧ Decorator A s = str "" := by
  have hi : isInt n := by
    have := k_isInt s
    rw [hk] at this
    exact this
  have hA : A n < 0 ∨ 10 < A n := by
    unfold isInt at hi
    unfold A mulInt wrapInt
    omega
  refine ⟨hA, ?_⟩
  rw [Decorator_of_ok A s n hk]
  exact (h_eq_empty_iff (A n)).2 hA

theorem C12_decorated_A_empty_outside_witness :
    k (str "6") = (6, none) ∧ ((5 : Int) < 6 ∨ (-2 ^ 63 + 5 < (6 : Int) ∧ (6 : Int) < 0)) ∧
      ((A 6 < 0 ∨ 10 < A 6) ∧ Decorator A (str "6") = str "") ∧ A 6 = 12 :=
  ⟨by decide, by decide,
    C12_decorated_A_empty_outside (str "6") 6 (by decide) (by decide), by decide⟩

/-- Claim C13: parse failure and render-range failure are the only two ways the decorated
function yields the empty string: if `Decorator f s` is empty then either `k s` returns an
error, or `k s` succeeds with `n` and `f n` lies outside `[0, 10]`. -/
theorem C13_empty_only_two_ways (f : InnerFunc) (s : GoString)
    (he : Decorator f s = str "") :
    (k s).2 ≠ none ∨ ∃ n, k s = (n, none) ∧ (f n < 0 ∨ 10 < f n) := by
  rcases hks : k s with ⟨n, _ | e⟩
  · right
    refine ⟨n, rfl, ?_⟩
    rw [Decorator_of_ok f s n hks] at he
    exact (h_eq_empty_iff (f n)).1 he
  · left
    simp

theorem C13_empty_only_two_ways_witness :
    Decorator A (str "6") = str "" ∧
      ((k (str "6")).2 ≠ none ∨ ∃ n, k (str "6") = (n, none) ∧ (A n < 0 ∨ 10 < A n)) :=
  ⟨by decide, C13_empty_only_two_ways A (str "6") (by decide)⟩

/-- Claim C14: for every string `s` on which `k` returns an error and every inner function
that records its calls in a log, the decorated function returns the empty string without
invoking the inner function: the log is unchanged (empty if it started empty); the same
holds for the state of any inner function with side effects. -/
theorem C14_inner_not_called_on_error (f : InnerFunc) (s : GoString)
    (hk : (k s).2 ≠ none) :
    DecoratorS (recording f) s [] = (str "", []) ∧
      (∀ log : List Int, DecoratorS (recording f) s log = (str "", log)) ∧
      ∀ (σ : Type) (inner : InnerFuncS σ) (st : σ), DecoratorS inner s st = (str "", st) :=
  ⟨DecoratorS_of_err (recording f) s [] hk,
    fun log => DecoratorS_of_err (recording f) s log hk,
    fun _ inner st => DecoratorS_of_err inner s st hk⟩

theorem C14_inner_not_called_on_error_witness :
    (k (str "not-a-number")).2 ≠ none ∧
      DecoratorS (recording (fun x => mulInt x 2)) (str "not-a-number") [] = (str "", []) :=
  ⟨by decide,
    (C14_inner_not_called_on_error (fun x => mulInt x 2) (str "not-a-number") (by decide)).1⟩

/-- Claim C15: for every string `s` that is an optional sign followed by decimal digits
whose denoted value lies outside the range of the Go type `int`, `k s` returns an error
(a range error), and therefore `Decorator f s` is the empty string for every inner
function `f`. -/
theorem C15_out_of_int_range_rejected (s : GoString) (hl : isIntLiteral s = true)
    (hr : ¬ isInt (literalValue s)) :
    (k s).2 = some NumError.ErrRange ∧ ∀ f : InnerFunc, Decorator f s = str "" := by
  have herr : (k s).2 = some NumError.ErrRange := Atoi_of_literal_outOfRange s hl hr
  refine ⟨herr, fun f => Decorator_of_err f s ?_⟩
  rw [herr]
  simp

theorem C15_out_of_int_range_rejected_witness :
    (isIntLiteral (str "9223372036854775808") = true ∧
        ¬ isInt (literalValue (str "9223372036854775808")) ∧
        (k (str "9223372036854775808")).2 = some NumError.ErrRange ∧
        Decorator (fun _ => 4) (str "9223372036854775808") = str "") ∧
      (isIntLiteral (str "-9223372036854775809") = true ∧
        ¬ isInt (literalValue (str "-9223372036854775809")) ∧
        (k (str "-9223372036854775809")).2 = some NumError.ErrRange ∧
        Decorator (fun _ => 4) (str "-9223372036854775809") = str "") :=
  ⟨⟨by decide, by decide,
      (C15_out_of_int_range_rejected (str "9223372036854775808") (by decide) (by decide)).1,
      (C15_out_of_int_range_rejected (str "9223372036854775808") (by decide) (by decide)).2
        (fun _ => 4)⟩,
    ⟨by decide, by decide,
      (C15_out_of_int_range_rejected (str "-9223372036854775809") (by decide) (by decide)).1,
      (C15_out_of_int_range_rejected (str "-9223372036854775809") (by decide) (by decide)).2
        (fun _ => 4)⟩⟩

/-- Claim C16: for every inner function `f` and every string `s`, `Decorator f s` is one
of the twelve strings empty, zero, one, two, three, four, five, six, seven, eight, nine,
ten; no other output is ever produced. -/
theorem C16_output_in_fixed_set (f : InnerFunc) (s : GoString) :
    Decorator f s ∈
      [ str "", str "zero", str "one", str "two", str "three", str "four", str "five",
        str "six", str "seven", str "eight", str "nine", str "ten" ] := by
  show Decorator f s ∈ outputs
  rcases hks : k s with ⟨n, _ | e⟩
  · rw [Decorator_of_ok f s n hks]
    exact h_mem_outputs (f n)
  · rw [Decorator_of_err f s (by rw [hks]; simp)]
    decide

/-- Claim C17: `h` is injective on its supported range and never returns the empty string
there: for `0 ≤ m, n ≤ 10`, `h m = h n` implies `m = n`, and `h n` is not empty; hence a
decorated result equal to the word of `n` determines the value of the inner function on
the parsed input: `k` succeeded and that value is `n`. -/
theorem C17_h_injective_on_range (m n : Int) (hm0 : 0 ≤ m) (hm10 : m ≤ 10)
    (hn0 : 0 ≤ n) (hn10 : n ≤ 10) :
    (h m = h n → m = n) ∧ h n ≠ str "" ∧
      ∀ (f : InnerFunc) (s : GoString),
        Decorator f s = h n → ∃ v, k s = (v, none) ∧ f v = n := by
  refine ⟨h_injOn m n hm0 hm10 hn0 hn10, h_ne_empty n hn0 hn10, ?_⟩
  intro f s hres
  rcases hks : k s with ⟨v, _ | e⟩
  · refine ⟨v, rfl, ?_⟩
    rw [Decorator_of_ok f s v hks] at hres
    have hne : h (f v) ≠ str "" := by
      rw [hres]
      exact h_ne_empty n hn0 hn10
    have hrange : ¬ (f v < 0 ∨ 10 < f v) := fun hout => hne ((h_eq_empty_iff (f v)).2 hout)
    exact h_injOn (f v) n (by omega) (by omega) hn0 hn10 hres
  · exfalso
    rw [Decorator_of_err f s (by rw [hks]; simp)] at hres
    exact h_ne_empty n hn0 hn10 hres.symm

theorem C17_h_injective_on_range_witness :
    ((0 : Int) ≤ 4 ∧ (4 : Int) ≤ 10) ∧
      ((h 4 = h 4 → (4 : Int) = 4) ∧ h 4 ≠ str "" ∧
        ∀ (f : InnerFunc) (s : GoString),
          Decorator f s = h 4 → ∃ v, k s = (v, none) ∧ f v = 4) :=
  ⟨by decide, C17_h_injective_on_range 4 4 (by decide) (by decide) (by decide) (by decide)⟩

end decorator
